import Mathlib

/-!
Verification development for the asam-osi-utilities trace-file subsystem.

The definitions below are shallow embeddings of the C++ sources:
  * `src/tracefile/OsiFileAnalyzer.cpp` (varint walker, sampling, recommendation),
  * `src/tracefile/reader/SingleChannelBinaryTraceFileReader.cpp`,
  * `src/tracefile/reader/TXTHTraceFileReader.cpp`,
  * `src/tracefile/reader/MCAPTraceFileReader.cpp`,
  * `src/tracefile/writer/MCAPTraceFileWriter.cpp`,
  * `include/osi-utilities/tracefile/TraceFileConfig.h`,
  * `include/osi-utilities/tracefile/Reader.h`.

Machine integers are modelled as `Nat` with explicit `% 2^w` reductions at
the points where the C++ code performs a narrowing cast or where unsigned
overflow can occur.  Files and byte buffers are `List Nat` (each element is
a byte value; byte reads reduce `% 256`, mirroring the `uint8_t`
reinterpretation of `char` data in the source).
-/

namespace OsiUtilities

/-- Configuration constants from `TraceFileConfig.h`. -/
def kMinChunkSize : Nat := 1024 * 1024

def kMaxChunkSize : Nat := 32 * 1024 * 1024

def kMaxExpectedMessageSize : Nat := 512 * 1024 * 1024

def kMinChunkDurationSeconds : ℚ := 1 / 2

def kMaxChunkDurationSeconds : ℚ := 5

def kMinMessageSizeForCompression : Nat := 1024

/-! ### The varint reader of `OsiFileAnalyzer::ExtractTimestampNanoseconds`

`read_varint` in `OsiFileAnalyzer.cpp` (lines 327-339) reads base-128
little-endian groups into a `uint64_t` accumulator:

    value = 0; shift = 0;
    while (cursor < limit && shift <= 63) {
      byte = bytes[cursor++];
      value |= (uint64_t)(byte & 0x7F) << shift;
      if ((byte & 0x80) == 0) return true;
      shift += 7;
    }
    return false;

The cursor/limit pair is modelled by passing the byte list between the
cursor and the limit.  `byte & 0x7F` on a `uint8_t` is `b % 256 % 128`,
the continuation test `(byte & 0x80) == 0` is `b % 256 < 128`, and the
`uint64_t` shift-or wraps each contribution modulo `2^64`. -/
def read_varint : List Nat → Nat → Option (Nat × List Nat)
  | [], _ => none
  | b :: rest, shift =>
    if shift ≤ 63 then
      let byte := b % 256
      let contrib := ((byte % 128) <<< shift) % 2 ^ 64
      if byte < 128 then
        some (contrib, rest)
      else
        match read_varint rest (shift + 7) with
        | none => none
        | some (v, rest') => some (contrib ||| v, rest')
    else none

/-- Standard base-128 varint encoder, used to build the hand-constructed
byte buffers that the spec's wire-walker properties quantify over. -/
def encodeVarint (v : Nat) : List Nat :=
  if h : v < 128 then [v]
  else (v % 128 + 128) :: encodeVarint (v / 128)
termination_by v
decreasing_by
  exact Nat.div_lt_self (by omega) (by omega)

theorem read_varint_length_lt {l : List Nat} {s v : Nat} {rest : List Nat}
    (h : read_varint l s = some (v, rest)) : rest.length < l.length := by
  induction l generalizing s v rest with
  | nil => simp [read_varint] at h
  | cons b t ih =>
    simp only [read_varint] at h
    by_cases hs : s ≤ 63
    · simp only [if_pos hs] at h
      by_cases hb : b % 256 < 128
      · simp only [if_pos hb] at h
        cases h
        simp
      · simp only [if_neg hb] at h
        cases hr : read_varint t (s + 7) with
        | none => rw [hr] at h; cases h
        | some p =>
          rw [hr] at h
          cases p with
          | mk v' rest' =>
            cases h
            have := ih hr
            simp only [List.length_cons]
            omega
    · simp [if_neg hs] at h

/-- Round-trip of the analyzer's varint reader against the standard
encoder: as long as the value fits in the bits that remain above the
current shift, the reader reconstructs it exactly. -/
theorem read_varint_encode (v : Nat) (s : Nat) (rest : List Nat)
    (hs : s ≤ 63) (hv : v < 2 ^ (64 - s)) :
    read_varint (encodeVarint v ++ rest) s = some (v <<< s, rest) := by
  induction v using Nat.strong_induction_on generalizing s with
  | _ v ih =>
    rw [encodeVarint]
    by_cases h : v < 128
    · simp only [dif_pos h, List.cons_append, List.nil_append, read_varint, if_pos hs]
      have hb : v % 256 = v := Nat.mod_eq_of_lt (by omega)
      have hvs : v * 2 ^ s < 2 ^ 64 := by
        calc v * 2 ^ s < 2 ^ (64 - s) * 2 ^ s :=
              (Nat.mul_lt_mul_right (Nat.pos_pow_of_pos s (by omega))).mpr hv
          _ = 2 ^ 64 := by rw [← pow_add]; congr 1; omega
      have hmod : v % 128 = v := Nat.mod_eq_of_lt h
      simp only [hb, hmod, if_pos h]
      congr 2
      rw [Nat.shiftLeft_eq]
      exact Nat.mod_eq_of_lt hvs
    · -- continuation byte
      have h128 : (128 : Nat) ≤ v := by omega
      have hslt : s + 7 ≤ 63 := by
        by_contra hc
        have : 64 - s ≤ 7 := by omega
        have : (2 : Nat) ^ (64 - s) ≤ 2 ^ 7 := Nat.pow_le_pow_right (by omega) this
        omega
      simp only [dif_neg h, List.cons_append, read_varint, if_pos hs]
      have hb : (v % 128 + 128) % 256 = v % 128 + 128 := by
        have : v % 128 < 128 := Nat.mod_lt _ (by omega)
        omega
      have hble : ¬ (v % 128 + 128) % 256 < 128 := by omega
      simp only [hb, if_neg hble]
      have hdiv : v / 128 < 2 ^ (64 - (s + 7)) := by
        rw [Nat.div_lt_iff_lt_mul (by omega : (0:Nat) < 128)]
        have h7 : (2:Nat) ^ (64 - (s + 7)) * 128 = 2 ^ (64 - s) := by
          have : (128 : Nat) = 2 ^ 7 := by norm_num
          rw [this, ← pow_add]
          congr 1
          omega
        omega
      have := ih (v / 128) (Nat.div_lt_self (by omega) (by omega)) (s + 7) hslt hdiv
      rw [this]
      have hmod : (v % 128 + 128) % 128 = v % 128 := by omega
      simp only [hmod]
      -- ((v % 128) <<< s) % 2^64 ||| (v / 128) <<< (s + 7) = v <<< s
      have hlow : (v % 128) * 2 ^ s < 2 ^ (s + 7) := by
        have h7 : v % 128 < 2 ^ 7 := Nat.mod_lt _ (by omega)
        calc (v % 128) * 2 ^ s < 2 ^ 7 * 2 ^ s :=
              (Nat.mul_lt_mul_right (Nat.pos_pow_of_pos s (by omega))).mpr h7
          _ = 2 ^ (s + 7) := by rw [← pow_add]; ring_nf
      have hlow64 : (v % 128) * 2 ^ s < 2 ^ 64 := by
        have : (2:Nat) ^ (s + 7) ≤ 2 ^ 64 := Nat.pow_le_pow_right (by omega) (by omega)
        omega
      rw [Nat.shiftLeft_eq, Nat.shiftLeft_eq, Nat.shiftLeft_eq,
        Nat.mod_eq_of_lt hlow64]
      have hor := Nat.mul_add_lt_is_or hlow (v / 128)
      rw [Nat.lor_comm, Nat.mul_comm (v / 128) (2 ^ (s + 7)), ← hor]
      have harith : 2 ^ (s + 7) * (v / 128) + v % 128 * 2 ^ s = v * 2 ^ s := by
        have hv128 : 128 * (v / 128) + v % 128 = v := by omega
        calc 2 ^ (s + 7) * (v / 128) + v % 128 * 2 ^ s
            = (128 * (v / 128) + v % 128) * 2 ^ s := by rw [pow_add]; ring
          _ = v * 2 ^ s := by rw [hv128]
      rw [if_neg (show ¬ v % 128 + 128 < 128 by omega), harith]

/-- Specialisation at shift 0: any value below `2^64` round-trips. -/
theorem read_varint_encode_zero (v : Nat) (rest : List Nat) (hv : v < 2 ^ 64) :
    read_varint (encodeVarint v ++ rest) 0 = some (v, rest) := by
  have := read_varint_encode v 0 rest (by omega) (by simpa using hv)
  simpa using this

/-! ### `parse_timestamp_submessage` (OsiFileAnalyzer.cpp, lines 341-405)

The C++ lambda loops `while (cursor < end)`; every iteration consumes at
least the one byte of the field tag, so the loop runs at most `length`
times.  The loop is modelled with a structural fuel parameter initialised
to `length + 1`, which therefore can never be exhausted (the fuel-0 branch
is unreachable; the characterisation lemmas below only ever need
`l.length < fuel`).

State: `seconds` holds the raw `uint64_t` varint value later cast to
`int64_t` (the sign test `seconds < 0` becomes `2^63 ≤ seconds`), `nanos`
holds `static_cast<uint32_t>(value)`, i.e. the varint value reduced
`% 2^32`.  The final result `(uint64_t)seconds * 1000000000ULL + nanos`
wraps modulo `2^64`.  Field number and wire type come from
`(uint32_t)(tag >> 3)` and `tag & 0x07`, written `tag / 8 % 2^32` and
`tag % 8`.  (The `cursor + len > end` comparisons are modelled without
`size_t` wraparound, i.e. assuming `cursor + len < 2^64`.) -/
def parse_ts_loop : Nat → List Nat → Nat → Nat → Bool → Bool → Option Nat
  | 0, _, _, _, _, _ => none
  | _ + 1, [], seconds, nanos, has_seconds, has_nanos =>
    if !has_seconds && !has_nanos then none
    else if 1000000000 ≤ nanos ∨ 2 ^ 63 ≤ seconds then none
    else some ((seconds * 1000000000 + nanos) % 2 ^ 64)
  | fuel + 1, b :: t, seconds, nanos, has_seconds, has_nanos =>
    match read_varint (b :: t) 0 with
    | none => none
    | some (tag, rest) =>
      let field_num := tag / 8 % 2 ^ 32
      let wire_type := tag % 8
      if wire_type = 0 then
        match read_varint rest 0 with
        | none => none
        | some (value, rest2) =>
          if field_num = 1 then
            parse_ts_loop fuel rest2 value nanos true has_nanos
          else if field_num = 2 then
            parse_ts_loop fuel rest2 seconds (value % 2 ^ 32) has_seconds true
          else
            parse_ts_loop fuel rest2 seconds nanos has_seconds has_nanos
      else if wire_type = 1 then
        if rest.length < 8 then none
        else parse_ts_loop fuel (rest.drop 8) seconds nanos has_seconds has_nanos
      else if wire_type = 2 then
        match read_varint rest 0 with
        | none => none
        | some (len, rest2) =>
          if rest2.length < len then none
          else parse_ts_loop fuel (rest2.drop len) seconds nanos has_seconds has_nanos
      else if wire_type = 5 then
        if rest.length < 4 then none
        else parse_ts_loop fuel (rest.drop 4) seconds nanos has_seconds has_nanos
      else none

def parse_timestamp_submessage (sub : List Nat) : Option Nat :=
  parse_ts_loop (sub.length + 1) sub 0 0 false false

/-! ### The outer field walker of `ExtractTimestampNanoseconds`
(OsiFileAnalyzer.cpp, lines 409-456).  A length-delimited field numbered
2 or 10 is a timestamp candidate; a successful submessage parse returns
immediately, otherwise the field is skipped.  All `break`/`return
nullopt` exits produce `none`. -/
def extract_outer_loop : Nat → List Nat → Option Nat
  | 0, _ => none
  | _ + 1, [] => none
  | fuel + 1, b :: t =>
    match read_varint (b :: t) 0 with
    | none => none
    | some (tag, rest) =>
      let field_num := tag / 8 % 2 ^ 32
      let wire_type := tag % 8
      if wire_type = 0 then
        match read_varint rest 0 with
        | none => none
        | some (_, rest2) => extract_outer_loop fuel rest2
      else if wire_type = 1 then
        if rest.length < 8 then none
        else extract_outer_loop fuel (rest.drop 8)
      else if wire_type = 2 then
        match read_varint rest 0 with
        | none => none
        | some (len, rest2) =>
          if rest2.length < len then none
          else if field_num = 2 ∨ field_num = 10 then
            match parse_timestamp_submessage (rest2.take len) with
            | some ts => some ts
            | none => extract_outer_loop fuel (rest2.drop len)
          else extract_outer_loop fuel (rest2.drop len)
      else if wire_type = 5 then
        if rest.length < 4 then none
        else extract_outer_loop fuel (rest.drop 4)
      else none

/-- `OsiFileAnalyzer::ExtractTimestampNanoseconds` (lines 310-457):
buffers shorter than 6 bytes are rejected up front, then the outer field
walker runs over the whole buffer. -/
def ExtractTimestampNanoseconds (data : List Nat) : Option Nat :=
  if data.length < 6 then none else extract_outer_loop (data.length + 1) data

/-- Wire encoding of an `osi3::Timestamp` submessage: varint field 1
(`seconds`, tag byte `0x08`) followed by varint field 2 (`nanos`, tag
byte `0x10`). -/
def encodeTimestampSubmessage (sec nan : Nat) : List Nat :=
  (8 :: encodeVarint sec) ++ (16 :: encodeVarint nan)

/-- Wire encoding of a top-level message whose only field is a
length-delimited submessage with the given field number carrying the
timestamp (tag byte `field * 8 + 2`). -/
def encodeTimestampMessage (field sec nan : Nat) : List Nat :=
  (field * 8 + 2) ::
    (encodeVarint (encodeTimestampSubmessage sec nan).length ++
      encodeTimestampSubmessage sec nan)

theorem read_varint_single (b : Nat) (hb : b < 128) (rest : List Nat) :
    read_varint (b :: rest) 0 = some (b, rest) := by
  have h1 : b % 256 = b := Nat.mod_eq_of_lt (by omega)
  have h2 : b % 128 = b := Nat.mod_eq_of_lt hb
  simp [read_varint, h1, h2, Nat.shiftLeft_eq, hb]
  all_goals omega

theorem read_varint_encode_nil (v : Nat) (hv : v < 2 ^ 64) :
    read_varint (encodeVarint v) 0 = some (v, []) := by
  have := read_varint_encode_zero v [] hv
  simpa using this

theorem encodeVarint_length_pos (v : Nat) : 1 ≤ (encodeVarint v).length := by
  rw [encodeVarint]
  by_cases h : v < 128 <;> simp [h]

theorem encodeVarint_length_le (k : Nat) : ∀ v : Nat, v < 128 ^ k → 1 ≤ k →
    (encodeVarint v).length ≤ k := by
  induction k with
  | zero => omega
  | succ k ih =>
    intro v hv _
    rw [encodeVarint]
    by_cases h : v < 128
    · simp [h]
    · simp only [dif_neg h, List.length_cons]
      have hk : 1 ≤ k := by
        by_contra hc
        have : k = 0 := by omega
        subst this
        simp at hv
        omega
      have : v / 128 < 128 ^ k := by
        rw [Nat.div_lt_iff_lt_mul (by omega : (0:Nat) < 128)]
        calc v < 128 ^ (k + 1) := hv
          _ = 128 ^ k * 128 := by ring
      have := ih (v / 128) this hk
      omega

theorem parse_ts_loop_encode (f sec nan : Nat) (hsec : sec < 2 ^ 64) (hnan : nan < 2 ^ 64) :
    parse_ts_loop (f + 3) (encodeTimestampSubmessage sec nan) 0 0 false false =
      if nan % 2 ^ 32 < 1000000000 ∧ sec < 2 ^ 63 then
        some ((sec * 1000000000 + nan % 2 ^ 32) % 2 ^ 64)
      else none := by
  have h8 : read_varint (8 :: (encodeVarint sec ++ (16 :: encodeVarint nan))) 0
      = some (8, encodeVarint sec ++ (16 :: encodeVarint nan)) :=
    read_varint_single 8 (by norm_num) _
  have hsec' : read_varint (encodeVarint sec ++ (16 :: encodeVarint nan)) 0
      = some (sec, 16 :: encodeVarint nan) := read_varint_encode_zero sec _ hsec
  have h16 : read_varint (16 :: encodeVarint nan) 0 = some (16, encodeVarint nan) :=
    read_varint_single 16 (by norm_num) _
  have hnan' : read_varint (encodeVarint nan) 0 = some (nan, []) :=
    read_varint_encode_nil nan hnan
  have hgoal : (if nan % 2 ^ 32 < 1000000000 ∧ sec < 2 ^ 63 then
        some ((sec * 1000000000 + nan % 2 ^ 32) % 2 ^ 64) else (none : Option Nat))
      = (if 1000000000 ≤ nan % 2 ^ 32 ∨ 2 ^ 63 ≤ sec then (none : Option Nat)
        else some ((sec * 1000000000 + nan % 2 ^ 32) % 2 ^ 64)) := by
    by_cases hc : nan % 2 ^ 32 < 1000000000 ∧ sec < 2 ^ 63
    · rw [if_pos hc, if_neg (by omega)]
    · rw [if_neg hc, if_pos (by omega)]
  rw [hgoal]
  unfold encodeTimestampSubmessage
  simp only [List.cons_append]
  norm_num [parse_ts_loop, h8, hsec', h16, hnan']

theorem encodeVarint_small (v : Nat) (h : v < 128) : encodeVarint v = [v] := by
  rw [encodeVarint]
  simp [h]

/-- Full characterisation of the wire walker on an encoded top-level
message with a single candidate timestamp field: `nanos` is truncated to
32 bits before validation, negative `seconds` (raw value `≥ 2^63`) is
rejected, and the returned nanosecond count wraps modulo `2^64`. -/
theorem ExtractTimestampNanoseconds_encode (f sec nan : Nat) (hf : f = 2 ∨ f = 10)
    (hsec : sec < 2 ^ 64) (hnan : nan < 2 ^ 64) :
    ExtractTimestampNanoseconds (encodeTimestampMessage f sec nan) =
      if nan % 2 ^ 32 < 1000000000 ∧ sec < 2 ^ 63 then
        some ((sec * 1000000000 + nan % 2 ^ 32) % 2 ^ 64)
      else none := by
  have htag : f * 8 + 2 < 128 := by rcases hf with rfl | rfl <;> norm_num
  have hfield : (f * 8 + 2) / 8 % 2 ^ 32 = f := by
    rcases hf with rfl | rfl <;> norm_num
  have hwire : (f * 8 + 2) % 8 = 2 := by omega
  have hsl : (encodeTimestampSubmessage sec nan).length ≤ 22 := by
    have hs10 := encodeVarint_length_le 10 sec
      (by calc sec < 2 ^ 64 := hsec
        _ ≤ 128 ^ 10 := by norm_num) (by norm_num)
    have hn10 := encodeVarint_length_le 10 nan
      (by calc nan < 2 ^ 64 := hnan
        _ ≤ 128 ^ 10 := by norm_num) (by norm_num)
    unfold encodeTimestampSubmessage
    simp only [List.length_append, List.length_cons]
    omega
  have hsl4 : 4 ≤ (encodeTimestampSubmessage sec nan).length := by
    have h1 := encodeVarint_length_pos sec
    have h2 := encodeVarint_length_pos nan
    unfold encodeTimestampSubmessage
    simp only [List.length_append, List.length_cons]
    omega
  have hdata : encodeTimestampMessage f sec nan
      = (f * 8 + 2) :: ((encodeTimestampSubmessage sec nan).length ::
          encodeTimestampSubmessage sec nan) := by
    unfold encodeTimestampMessage
    rw [encodeVarint_small _ (by omega)]
    simp
  rw [hdata]
  set sub := encodeTimestampSubmessage sec nan with hsubdef
  unfold ExtractTimestampNanoseconds
  simp only [List.length_cons]
  rw [if_neg (by omega)]
  simp only [extract_outer_loop, read_varint_single (f * 8 + 2) htag, hfield, hwire]
  norm_num
  simp only [read_varint_single sub.length (by omega) sub]
  rw [if_neg (lt_irrefl sub.length)]
  rw [if_pos hf]
  rw [List.take_length]
  unfold parse_timestamp_submessage
  rw [show sub.length + 1 = (sub.length - 2) + 3 by omega]
  rw [parse_ts_loop_encode (sub.length - 2) sec nan hsec hnan]
  show _ = if nan % 2 ^ 32 < 1000000000 ∧ sec < 2 ^ 63 then
      some ((sec * 1000000000 + nan % 2 ^ 32) % 2 ^ 64) else none
  by_cases hc : nan % 2 ^ 32 < 1000000000 ∧ sec < 2 ^ 63
  · rw [if_pos hc]
  · rw [if_neg hc]
    show extract_outer_loop (sub.length + 2) (List.drop sub.length sub) = none
    rw [List.drop_length]
    simp [extract_outer_loop]

/-- C1 (amended): for a buffer whose top level carries a length-delimited
field numbered 2 or 10 encoding a submessage with varint `seconds`
(field 1) and varint `nanos` (field 2), `ExtractTimestampNanoseconds`
returns `seconds * 1e9 + (nanos % 2^32)` reduced `% 2^64` whenever the
32-bit-truncated nanos is below `1e9` and seconds is non-negative as an
`int64` (raw value `< 2^63`); it returns no timestamp when the truncated
nanos is `≥ 1e9` or seconds is negative.  The validation happens only
after `nanos` is narrowed to `uint32`, and the result wraps in `uint64`
arithmetic. -/
theorem C1_extract_timestamp (field sec nan : Nat) (hf : field = 2 ∨ field = 10)
    (hsec : sec < 2 ^ 64) (hnan : nan < 2 ^ 64) :
    ExtractTimestampNanoseconds (encodeTimestampMessage field sec nan) =
      if nan % 2 ^ 32 < 1000000000 ∧ sec < 2 ^ 63 then
        some ((sec * 1000000000 + nan % 2 ^ 32) % 2 ^ 64)
      else none :=
  ExtractTimestampNanoseconds_encode field sec nan hf hsec hnan

/-- Witness for C1 at the spec's example inputs: `seconds = 42`,
`nanos = 123456` in a field-2 submessage yields
`42 * 1e9 + 123456 = 42_000_123_456` nanoseconds. -/
theorem C1_extract_timestamp_witness :
    ((2:Nat) = 2 ∨ (2:Nat) = 10) ∧ (42:Nat) < 2 ^ 64 ∧ (123456:Nat) < 2 ^ 64 ∧
    ExtractTimestampNanoseconds (encodeTimestampMessage 2 42 123456) =
      some 42000123456 := by
  refine ⟨Or.inl rfl, by norm_num, by norm_num, ?_⟩
  have h := C1_extract_timestamp 2 42 123456 (Or.inl rfl) (by norm_num) (by norm_num)
  rw [h]
  norm_num

/-- Counterexample to C1 as stated, on two counts.  First, at the claim's
own example (`seconds = 42`, `nanos = 123456`) the extractor returns
`42 * 1e9 + 123456 = 42_000_123_456`, not the claimed `42_000_000_123456`.
Second, a submessage whose `nanos` varint has value `2^32 ≥ 1e9` is not
rejected: the value is truncated to `0` by the `uint32` cast before
validation and the truncated timestamp `42 * 1e9 + 0` is returned,
contradicting "returns no timestamp at all, never a wrapped or truncated
value". -/
theorem C1_counterexample :
    (ExtractTimestampNanoseconds (encodeTimestampMessage 2 42 123456) =
        some 42000123456 ∧ (42000123456 : Nat) ≠ 42000000123456) ∧
    (1000000000 ≤ 2 ^ 32 ∧
      ExtractTimestampNanoseconds (encodeTimestampMessage 2 42 (2 ^ 32)) =
        some 42000000000) := by
  refine ⟨⟨?_, by norm_num⟩, by norm_num, ?_⟩
  · have h := ExtractTimestampNanoseconds_encode 2 42 123456 (Or.inl rfl)
      (by norm_num) (by norm_num)
    rw [h]
    norm_num
  · have h := ExtractTimestampNanoseconds_encode 2 42 (2 ^ 32) (Or.inl rfl)
      (by norm_num) (by norm_num)
    rw [h]
    norm_num

/-! ### `OsiFileAnalyzer::Analyze`: timestamp sampling (lines 81-156)

`timestampSampleSize`/`analyzeIsSampled` model lines 82-95 of
`OsiFileAnalyzer.cpp`; `sampleIndexList` models the index construction of
lines 97-110 (note the integer division `(i * (total-1)) / denom`);
`pass2Samples` models the per-frame `should_sample`/`sample_cursor`
decision of the second scan (lines 125-156) on a file whose reads all
succeed, recording which frame indices get their payload read. -/
def timestampSampleSize (total sample : Nat) : Nat :=
  let sz := if sample = 0 ∨ total ≤ sample then total
            else if 1 < total ∧ sample < 2 then 2 else sample
  min sz total

def analyzeIsSampled (total sample : Nat) : Bool :=
  if sample = 0 ∨ total ≤ sample then false else true

def sampleIndexList (total k : Nat) : List Nat :=
  if k = 1 then [0]
  else (List.range k).map (fun i => i * (total - 1) / (k - 1))

def pass2Samples (sampleAll : Bool) : Nat → Nat → List Nat → List Nat
  | 0, _, _ => []
  | n + 1, idx, pending =>
    let hit : Bool := match pending with
      | p :: _ => p == idx
      | [] => false
    if sampleAll || hit then
      idx :: pass2Samples sampleAll n (idx + 1)
        (if sampleAll then pending else
          match pending with
          | p :: rest => if p == idx then rest else p :: rest
          | [] => [])
    else pass2Samples sampleAll n (idx + 1) pending

/-- The frame indices whose timestamps `Analyze` samples on an `N`-frame
file with requested `sample` size. -/
def analyzeSampledFrames (total sample : Nat) : List Nat :=
  let k := timestampSampleSize total sample
  let sampleAll : Bool := k == total
  let indices := if !sampleAll && decide (0 < k) then sampleIndexList total k else []
  pass2Samples sampleAll total 0 indices

/-- Modelled from the spec's words (for comparison only): "index `i` of
`k` samples mapped to file-frame `round(i · (N-1) / (k-1))`", with
`round` the usual half-up nearest-integer rounding
`round(a/d) = (2a + d) / (2d)`. -/
def specRoundSampleIndices (total k : Nat) : List Nat :=
  (List.range k).map (fun i => (2 * (i * (total - 1)) + (k - 1)) / (2 * (k - 1)))

theorem pass2Samples_all (n : Nat) : ∀ (idx : Nat) (pending : List Nat),
    pass2Samples true n idx pending = List.range' idx n := by
  induction n with
  | zero => intro idx pending; simp [pass2Samples, List.range']
  | succ n ih =>
    intro idx pending
    simp [pass2Samples, ih, List.range']

theorem pass2Samples_sorted (n : Nat) : ∀ (idx : Nat) (pending : List Nat),
    List.Pairwise (· < ·) pending →
    (∀ x ∈ pending, idx ≤ x ∧ x < idx + n) →
    pass2Samples false n idx pending = pending := by
  induction n with
  | zero =>
    intro idx pending _ hb
    cases pending with
    | nil => simp [pass2Samples]
    | cons p rest =>
      have := hb p (by simp)
      omega
  | succ n ih =>
    intro idx pending hp hb
    cases pending with
    | nil =>
      simpa [pass2Samples] using ih (idx + 1) [] (by simp) (by simp)
    | cons p rest =>
      by_cases hpi : p = idx
      · subst hpi
        have hrest : pass2Samples false n (p + 1) rest = rest := by
          apply ih
          · exact hp.sublist (List.sublist_cons_self p rest)
          · intro x hx
            have h1 := (List.pairwise_cons.mp hp).1 x hx
            have h2 := hb x (by simp [hx])
            omega
        simp [pass2Samples, hrest]
      · have hple : idx + 1 ≤ p := by
          have := hb p (by simp)
          omega
        have hrec : pass2Samples false n (idx + 1) (p :: rest) = p :: rest := by
          apply ih
          · exact hp
          · intro x hx
            rcases List.mem_cons.mp hx with rfl | hx'
            · have := hb x (by simp)
              omega
            · have h1 := (List.pairwise_cons.mp hp).1 x hx'
              have h2 := hb x (by simp [hx'])
              omega
        simpa [pass2Samples, hpi] using hrec

theorem sampleIndexList_pairwise (total k : Nat) (h2 : 2 ≤ k) (hk : k ≤ total) :
    List.Pairwise (· < ·) (sampleIndexList total k) ∧
    ∀ x ∈ sampleIndexList total k, x < total := by
  have hd : 0 < k - 1 := by omega
  have key : ∀ i j : Nat, i < j →
      i * (total - 1) / (k - 1) < j * (total - 1) / (k - 1) := by
    intro i j hij
    have step : (i * (total - 1) / (k - 1) + 1) * (k - 1) ≤ j * (total - 1) := by
      have h1 : (i * (total - 1) / (k - 1)) * (k - 1) ≤ i * (total - 1) :=
        Nat.div_mul_le_self _ _
      have h2 : (i + 1) * (total - 1) ≤ j * (total - 1) :=
        Nat.mul_le_mul_right _ (by omega)
      have h3 : i * (total - 1) + (total - 1) = (i + 1) * (total - 1) := by ring
      have h4 : (i * (total - 1) / (k - 1) + 1) * (k - 1)
          = (i * (total - 1) / (k - 1)) * (k - 1) + (k - 1) := by ring
      omega
    have := (Nat.le_div_iff_mul_le hd).mpr step
    omega
  constructor
  · unfold sampleIndexList
    rw [if_neg (by omega)]
    refine List.Pairwise.map _ (fun {a b} hab => key a b hab) ?_
    exact List.pairwise_lt_range k
  · intro x hx
    unfold sampleIndexList at hx
    rw [if_neg (by omega)] at hx
    obtain ⟨i, hi, rfl⟩ := List.mem_map.mp hx
    have hik : i ≤ k - 1 := by
      have := List.mem_range.mp hi
      omega
    have h1 : i * (total - 1) ≤ (k - 1) * (total - 1) :=
      Nat.mul_le_mul_right _ hik
    have h2 : i * (total - 1) / (k - 1) ≤ (k - 1) * (total - 1) / (k - 1) :=
      Nat.div_le_div_right h1
    have h3 : (k - 1) * (total - 1) / (k - 1) = total - 1 :=
      Nat.mul_div_cancel_left _ hd
    omega

/-- C2 (amended): for `2 ≤ k < N` the analyzer deterministically samples
exactly the frames at indices `⌊i * (N-1) / (k-1)⌋` for `i = 0..k-1`
(integer/floor division, not rounding to nearest) and reports
`is_sampled = true`; for `sample_size = 0` it reads every frame's
timestamp and reports `is_sampled = false`. -/
theorem C2_sampling (N k : Nat) (h2 : 2 ≤ k) (hk : k < N) :
    analyzeSampledFrames N k = (List.range k).map (fun i => i * (N - 1) / (k - 1)) ∧
    analyzeIsSampled N k = true ∧
    analyzeSampledFrames N 0 = List.range N ∧
    analyzeIsSampled N 0 = false := by
  refine ⟨?_, ?_, ?_, ?_⟩
  · have hsz : timestampSampleSize N k = k := by
      unfold timestampSampleSize
      rw [if_neg (by omega), if_neg (by omega)]
      show min k N = k
      exact Nat.min_eq_left (by omega)
    have hne : (k == N) = false := by
      simp only [beq_eq_false_iff_ne, ne_eq]
      omega
    have hprops := sampleIndexList_pairwise N k h2 (by omega)
    have hpass := pass2Samples_sorted N 0 (sampleIndexList N k) hprops.1
      (fun x hx => ⟨Nat.zero_le x, by simpa using hprops.2 x hx⟩)
    simp only [analyzeSampledFrames, hsz, hne, Bool.not_false, Bool.true_and,
      decide_eq_true_eq]
    rw [if_pos (by omega)]
    rw [hpass]
    unfold sampleIndexList
    rw [if_neg (by omega)]
  · unfold analyzeIsSampled
    rw [if_neg (by omega)]
  · have hsz : timestampSampleSize N 0 = N := by
      unfold timestampSampleSize
      simp
    simp only [analyzeSampledFrames, hsz, beq_self_eq_true, Bool.not_true,
      Bool.false_and, Bool.false_eq_true, if_false]
    rw [pass2Samples_all N 0 []]
    exact (List.range_eq_range' N).symm
  · unfold analyzeIsSampled
    simp

/-- Witness for C2 at the spec's example size: a 1000-frame file with
`sample_size = 10` always selects the same ten indices. -/
theorem C2_sampling_witness :
    (2 ≤ 10 ∧ 10 < 1000) ∧
    analyzeSampledFrames 1000 10 = [0, 111, 222, 333, 444, 555, 666, 777, 888, 999] ∧
    analyzeIsSampled 1000 10 = true ∧
    analyzeSampledFrames 1000 0 = List.range 1000 ∧
    analyzeIsSampled 1000 0 = false := by
  have h := C2_sampling 1000 10 (by norm_num) (by norm_num)
  refine ⟨⟨by norm_num, by norm_num⟩, ?_, h.2.1, h.2.2.1, h.2.2.2⟩
  rw [h.1]
  decide

/-- Counterexample to C2 as stated: on a 4-frame file with
`sample_size = 3` the code samples frames `{0, 1, 3}` (floor division),
while `round(i * (N-1) / (k-1))` would give `{0, 2, 3}`
(`round(1.5) = 2`). -/
theorem C2_counterexample :
    analyzeSampledFrames 4 3 = [0, 1, 3] ∧
    specRoundSampleIndices 4 3 = [0, 2, 3] ∧
    analyzeSampledFrames 4 3 ≠ specRoundSampleIndices 4 3 := by
  decide

/-! ### `OsiFileAnalyzer::RecommendMcapOptions` (lines 193-246)

The `double` statistics are modelled as rationals; every input the claims
evaluate (`10000`, `100`, `1.0`, and the clamp bounds `0.5`/`5.0`) is
exactly representable and the products involved are exact in `double`, so
the model agrees with the floating-point code there.  The
`static_cast<uint64_t>` of the non-negative product truncates toward
zero, i.e. `Int.toNat ∘ Int.floor`.  The rationale string is modelled by
`clamp_note`: `none` when no clamping note is appended, `some true` when
the note names the min bound, `some false` when it names the max
bound. -/
def clampQ (x lo hi : ℚ) : ℚ := if x < lo then lo else if hi < x then hi else x

def clampNat (v lo hi : Nat) : Nat := if v < lo then lo else if hi < v then hi else v

structure RecommendedMcapOptions where
  chunk_size : Nat
  calculated_chunk_size : Nat
  clamp_note : Option Bool
  compression_none : Bool
  deriving Repr, DecidableEq

def RecommendMcapOptions (avg_message_size frame_rate_hz target_chunk_duration_seconds : ℚ) :
    RecommendedMcapOptions :=
  let t := clampQ target_chunk_duration_seconds kMinChunkDurationSeconds kMaxChunkDurationSeconds
  let messages_per_chunk := frame_rate_hz * t
  let calculated_chunk_size : Nat := (⌊avg_message_size * messages_per_chunk⌋).toNat
  let chunk_size := clampNat calculated_chunk_size kMinChunkSize kMaxChunkSize
  { chunk_size := chunk_size
    calculated_chunk_size := calculated_chunk_size
    clamp_note := if chunk_size ≠ calculated_chunk_size then
        some (chunk_size == kMinChunkSize) else none
    compression_none := decide (avg_message_size < (kMinMessageSizeForCompression : ℚ)) }

theorem clampQ_mem (x lo hi : ℚ) (h : lo ≤ hi) :
    lo ≤ clampQ x lo hi ∧ clampQ x lo hi ≤ hi := by
  unfold clampQ
  split_ifs with h1 h2
  · exact ⟨le_refl _, h⟩
  · exact ⟨h, le_refl _⟩
  · exact ⟨by linarith, by linarith⟩

/-- Evaluation of the recommendation at the spec's example inputs. -/
theorem RecommendMcapOptions_instance :
    (RecommendMcapOptions 10000 100 1).calculated_chunk_size = 1000000 ∧
    (RecommendMcapOptions 10000 100 1).chunk_size = kMinChunkSize ∧
    (RecommendMcapOptions 10000 100 1).clamp_note = some true := by
  have hcalc : (RecommendMcapOptions 10000 100 1).calculated_chunk_size = 1000000 := by
    show (⌊(10000:ℚ) * ((100:ℚ) *
        clampQ 1 kMinChunkDurationSeconds kMaxChunkDurationSeconds)⌋).toNat = 1000000
    have hc : clampQ 1 kMinChunkDurationSeconds kMaxChunkDurationSeconds = 1 := by
      unfold clampQ kMinChunkDurationSeconds kMaxChunkDurationSeconds
      norm_num
    rw [hc]
    norm_num
    rfl
  have hchunk2 : (RecommendMcapOptions 10000 100 1).chunk_size = kMinChunkSize := by
    have h0 : (RecommendMcapOptions 10000 100 1).chunk_size
        = clampNat (RecommendMcapOptions 10000 100 1).calculated_chunk_size
            kMinChunkSize kMaxChunkSize := rfl
    rw [h0, hcalc]
    unfold clampNat
    rw [if_pos (by norm_num [kMinChunkSize])]
  refine ⟨hcalc, hchunk2, ?_⟩
  have h0 : (RecommendMcapOptions 10000 100 1).clamp_note
      = if (RecommendMcapOptions 10000 100 1).chunk_size
            ≠ (RecommendMcapOptions 10000 100 1).calculated_chunk_size
        then some ((RecommendMcapOptions 10000 100 1).chunk_size == kMinChunkSize)
        else none := rfl
  rw [h0, hcalc, hchunk2]
  rw [if_pos (by norm_num [kMinChunkSize])]
  simp

/-- C3 (amended): the requested target chunk duration is clamped into
`[0.5 s, 5 s]`, the raw chunk size is `avg_message_size * (frame_rate_hz
* clamped_duration)` truncated to an integer, the published chunk size
clamps the raw value into `[1 MiB, 32 MiB]` with the rationale recording
which bound was applied; for `avg = 10000`, `rate = 100`,
`duration = 1.0 s` the raw chunk size is `1,000,000` bytes, which falls
*below* the 1 MiB (`1,048,576`) minimum and is clamped up to it, with the
rationale noting the min bound. -/
theorem C3_recommend_chunk (avg rate target : ℚ) :
    ((RecommendMcapOptions avg rate target).calculated_chunk_size
        = (⌊avg * (rate * clampQ target kMinChunkDurationSeconds kMaxChunkDurationSeconds)⌋).toNat ∧
      kMinChunkDurationSeconds ≤ clampQ target kMinChunkDurationSeconds kMaxChunkDurationSeconds ∧
      clampQ target kMinChunkDurationSeconds kMaxChunkDurationSeconds ≤ kMaxChunkDurationSeconds ∧
      (RecommendMcapOptions avg rate target).chunk_size
        = clampNat (RecommendMcapOptions avg rate target).calculated_chunk_size
            kMinChunkSize kMaxChunkSize) ∧
    (((RecommendMcapOptions avg rate target).calculated_chunk_size < kMinChunkSize →
        (RecommendMcapOptions avg rate target).chunk_size = kMinChunkSize ∧
        (RecommendMcapOptions avg rate target).clamp_note = some true) ∧
      (kMaxChunkSize < (RecommendMcapOptions avg rate target).calculated_chunk_size →
        (RecommendMcapOptions avg rate target).chunk_size = kMaxChunkSize ∧
        (RecommendMcapOptions avg rate target).clamp_note = some false) ∧
      (kMinChunkSize ≤ (RecommendMcapOptions avg rate target).calculated_chunk_size →
        (RecommendMcapOptions avg rate target).calculated_chunk_size ≤ kMaxChunkSize →
        (RecommendMcapOptions avg rate target).chunk_size
            = (RecommendMcapOptions avg rate target).calculated_chunk_size ∧
        (RecommendMcapOptions avg rate target).clamp_note = none)) ∧
    ((RecommendMcapOptions 10000 100 1).calculated_chunk_size = 1000000 ∧
      1000000 < kMinChunkSize ∧
      (RecommendMcapOptions 10000 100 1).chunk_size = kMinChunkSize ∧
      (RecommendMcapOptions 10000 100 1).clamp_note = some true) := by
  have hmem := clampQ_mem target kMinChunkDurationSeconds kMaxChunkDurationSeconds
    (by norm_num [kMinChunkDurationSeconds, kMaxChunkDurationSeconds])
  have hchunk : (RecommendMcapOptions avg rate target).chunk_size
      = clampNat (RecommendMcapOptions avg rate target).calculated_chunk_size
          kMinChunkSize kMaxChunkSize := rfl
  have hnote : (RecommendMcapOptions avg rate target).clamp_note
      = if (RecommendMcapOptions avg rate target).chunk_size
            ≠ (RecommendMcapOptions avg rate target).calculated_chunk_size
        then some ((RecommendMcapOptions avg rate target).chunk_size == kMinChunkSize)
        else none := rfl
  have hklt : kMinChunkSize < kMaxChunkSize := by norm_num [kMinChunkSize, kMaxChunkSize]
  set v := (RecommendMcapOptions avg rate target).calculated_chunk_size with hv
  refine ⟨⟨rfl, hmem.1, hmem.2, hchunk⟩, ⟨?_, ?_, ?_⟩, ?_⟩
  · intro hlt
    have h1 : clampNat v kMinChunkSize kMaxChunkSize = kMinChunkSize := by
      unfold clampNat
      rw [if_pos hlt]
    refine ⟨by rw [hchunk, h1], ?_⟩
    rw [hnote, hchunk, h1]
    rw [if_pos (by omega)]
    simp
  · intro hgt
    have h1 : clampNat v kMinChunkSize kMaxChunkSize = kMaxChunkSize := by
      unfold clampNat
      rw [if_neg (by omega), if_pos hgt]
    refine ⟨by rw [hchunk, h1], ?_⟩
    rw [hnote, hchunk, h1]
    rw [if_pos (by omega)]
    have hb : (kMaxChunkSize == kMinChunkSize) = false := by
      simp only [beq_eq_false_iff_ne, ne_eq]
      omega
    rw [hb]
  · intro hge hle
    have h1 : clampNat v kMinChunkSize kMaxChunkSize = v := by
      unfold clampNat
      rw [if_neg (by omega), if_neg (by omega)]
    refine ⟨by rw [hchunk, h1], ?_⟩
    rw [hnote, hchunk, h1]
    rw [if_neg (by omega)]
  · exact ⟨RecommendMcapOptions_instance.1, by norm_num [kMinChunkSize],
      RecommendMcapOptions_instance.2.1, RecommendMcapOptions_instance.2.2⟩

/-- Counterexample to C3 as stated: the raw computed chunk size for
`avg = 10000`, `rate = 100`, `duration = 1.0 s` is `1,000,000` bytes,
which is strictly below the documented 1 MiB minimum (`1,048,576`), not
"exactly at the 1 MiB minimum clamp boundary". -/
theorem C3_counterexample :
    (RecommendMcapOptions 10000 100 1).calculated_chunk_size = 1000000 ∧
    (1000000 : Nat) ≠ kMinChunkSize ∧ 1000000 < kMinChunkSize := by
  exact ⟨RecommendMcapOptions_instance.1, by norm_num [kMinChunkSize],
    by norm_num [kMinChunkSize]⟩

/-! ### Message kinds and the filename-infix table (`Reader.h`, lines 20-46) -/
inductive ReaderTopLevelMessage where
  | kUnknown
  | kGroundTruth
  | kSensorData
  | kSensorView
  | kSensorViewConfiguration
  | kHostVehicleData
  | kTrafficCommand
  | kTrafficCommandUpdate
  | kTrafficUpdate
  | kMotionRequest
  | kStreamingUpdate
  deriving Repr, DecidableEq

/-- `kFileNameMessageTypeMap` is a `std::unordered_map`, so its iteration
order is implementation-defined (deterministic within one run).  The
entries are listed here in declaration order; lemmas that depend on the
scan order take the entry sequence as a parameter. -/
def kFileNameMessageTypeMap : List (String × ReaderTopLevelMessage) :=
  [("_gt_", .kGroundTruth), ("_sd_", .kSensorData), ("_sv_", .kSensorView),
   ("_svc_", .kSensorViewConfiguration), ("_hvd_", .kHostVehicleData),
   ("_tc_", .kTrafficCommand), ("_tcu_", .kTrafficCommandUpdate),
   ("_tu_", .kTrafficUpdate), ("_mr_", .kMotionRequest), ("_su_", .kStreamingUpdate)]

/-! ### `SingleChannelBinaryTraceFileReader` (reader sources)

The reader's state is its open flag, the bytes of the open file that
remain past the read cursor, the stored `message_type_`, and the kind the
`parser_` binding was taken from (`kParserMap_.at(message_type_)` at open
time; the binding itself never changes afterwards). -/
structure SingleChannelBinaryReaderState where
  isOpen : Bool
  fileRemaining : List Nat
  messageType : ReaderTopLevelMessage
  parserBoundTo : ReaderTopLevelMessage
  deriving Repr, DecidableEq

/-- Little-endian `uint32` read of 4 bytes, as done by
`file.read(reinterpret_cast<char*>(&message_size), 4)`; `none` models a
failed (short) read. -/
def readU32LE : List Nat → Option (Nat × List Nat)
  | b0 :: b1 :: b2 :: b3 :: rest =>
    some (b0 % 256 + 256 * (b1 % 256) + 65536 * (b2 % 256) + 16777216 * (b3 % 256), rest)
  | _ => none

/-- `HasNext`: stream good, open, and `peek() != EOF`. -/
def binHasNext (st : SingleChannelBinaryReaderState) : Bool :=
  st.isOpen && !st.fileRemaining.isEmpty

inductive BinReadOutcome where
  | noMessage
  | fatal (msg : String)
  | message (payload : List Nat) (messageType : ReaderTopLevelMessage)
  deriving Repr, DecidableEq

/-- `ReadMessage` plus `ReadNextMessageFromFile`
(SingleChannelBinaryTraceFileReader.cpp, lines 89-123).  `fatal` models a
thrown `std::runtime_error`; `noMessage` the `std::nullopt` return of the
`HasNext` guard.  A failed stream read consumes the remaining bytes and
sets the fail state, modelled by an empty remainder. -/
def binReadMessage (st : SingleChannelBinaryReaderState) :
    BinReadOutcome × SingleChannelBinaryReaderState :=
  if !(binHasNext st) then (.noMessage, st)
  else
    match readU32LE st.fileRemaining with
    | none =>
      (.fatal "ERROR: Failed to read message size from file.",
        { st with fileRemaining := [] })
    | some (size, rest) =>
      if size = 0 ∨ kMaxExpectedMessageSize < size then
        (.fatal "ERROR: Invalid message size", { st with fileRemaining := rest })
      else if rest.length < size then
        (.fatal "ERROR: Failed to read message from file",
          { st with fileRemaining := [] })
      else
        (.message (rest.take size) st.messageType,
          { st with fileRemaining := rest.drop size })

theorem readU32LE_none_iff (l : List Nat) : readU32LE l = none ↔ l.length < 4 := by
  match l with
  | [] => simp [readU32LE]
  | [a] => simp [readU32LE]
  | [a, b] => simp [readU32LE]
  | [a, b, c] => simp [readU32LE]
  | a :: b :: c :: d :: rest => simp [readU32LE]

/-- C4: with the file open and at least one byte left, `ReadMessage`
raises exactly when the 4-byte prefix cannot be fully read, the decoded
length is 0 or exceeds `kMaxExpectedMessageSize`, or fewer payload bytes
remain than declared; otherwise it hands exactly `size` bytes to the
configured kind's parser. -/
theorem C4_binary_read (st : SingleChannelBinaryReaderState)
    (hopen : st.isOpen = true) (hne : st.fileRemaining ≠ []) :
    ((∃ m, (binReadMessage st).1 = .fatal m) ↔
      (st.fileRemaining.length < 4 ∨
        ∃ size rest, readU32LE st.fileRemaining = some (size, rest) ∧
          (size = 0 ∨ kMaxExpectedMessageSize < size ∨ rest.length < size))) ∧
    (∀ size rest, readU32LE st.fileRemaining = some (size, rest) →
      0 < size → size ≤ kMaxExpectedMessageSize → size ≤ rest.length →
      (binReadMessage st).1 = .message (rest.take size) st.messageType ∧
      (rest.take size).length = size) := by
  have hh : binHasNext st = true := by
    simp [binHasNext, hopen, hne]
  cases hr : readU32LE st.fileRemaining with
  | none =>
    have hlen : st.fileRemaining.length < 4 := (readU32LE_none_iff _).mp hr
    constructor
    · constructor
      · intro _
        exact Or.inl hlen
      · intro _
        refine ⟨"ERROR: Failed to read message size from file.", ?_⟩
        unfold binReadMessage
        rw [hh, hr]
        simp
    · intro size rest hsome
      cases hsome
  | some p =>
    obtain ⟨size, rest⟩ := p
    have hge : ¬ st.fileRemaining.length < 4 := by
      intro hc
      rw [(readU32LE_none_iff _).mpr hc] at hr
      cases hr
    constructor
    · constructor
      · intro ⟨m, hm⟩
        unfold binReadMessage at hm
        rw [hh, hr] at hm
        simp only [Bool.not_true, Bool.false_eq_true, if_false] at hm
        by_cases h1 : size = 0 ∨ kMaxExpectedMessageSize < size
        · exact Or.inr ⟨size, rest, rfl, by omega⟩
        · rw [if_neg h1] at hm
          by_cases h2 : rest.length < size
          · exact Or.inr ⟨size, rest, rfl, by omega⟩
          · rw [if_neg h2] at hm
            simp at hm
      · intro hcase
        rcases hcase with hlen | ⟨size', rest', hsome', hbad⟩
        · omega
        · injection hsome' with h
          injection h with h1 h2
          subst h1
          subst h2
          unfold binReadMessage
          rw [hh, hr]
          simp only [Bool.not_true, Bool.false_eq_true, if_false]
          by_cases h1 : size = 0 ∨ kMaxExpectedMessageSize < size
          · rw [if_pos h1]
            exact ⟨_, rfl⟩
          · rw [if_neg h1, if_pos (by omega)]
            exact ⟨_, rfl⟩
    · intro size' rest' hsome' hpos hle hlen
      injection hsome' with h
      injection h with h1 h2
      subst h1
      subst h2
      unfold binReadMessage
      rw [hh, hr]
      simp only [Bool.not_true, Bool.false_eq_true, if_false]
      rw [if_neg (by omega), if_neg (by omega)]
      exact ⟨rfl, List.length_take_of_le hlen⟩

/-- Witness for C4: a file holding one 1-byte message is read back as
exactly that byte. -/
theorem C4_binary_read_witness :
    (binReadMessage ⟨true, [1, 0, 0, 0, 99], .kGroundTruth, .kGroundTruth⟩).1
      = .message [99] .kGroundTruth := by
  have h := C4_binary_read ⟨true, [1, 0, 0, 0, 99], .kGroundTruth, .kGroundTruth⟩
    rfl (by decide)
  have h2 := h.2 1 [99] (by decide) (by decide)
    (by norm_num [kMaxExpectedMessageSize]) (by decide)
  exact h2.1

/-! ### Filename-based kind inference and `Open` (reader/writer sources) -/

/-- Whether the second list starts with the first. -/
def startsWithSeq {α : Type} [DecidableEq α] : List α → List α → Bool
  | [], _ => true
  | _ :: _, [] => false
  | p :: ps, x :: xs => if p = x then startsWithSeq ps xs else false

/-- Whether `pat` occurs contiguously inside the second list; models
`std::string::find(key) != npos`. -/
def containsSeq {α : Type} [DecidableEq α] (pat : List α) : List α → Bool
  | [] => startsWithSeq pat []
  | x :: xs => startsWithSeq pat (x :: xs) || containsSeq pat xs

/-- The filename scan of `Open`: the first entry (in the map's iteration
order) whose infix occurs in the file's base name gives the kind,
otherwise `kUnknown`. -/
def inferTypeFromFilename (entries : List (String × ReaderTopLevelMessage))
    (base : String) : ReaderTopLevelMessage :=
  match entries.find? (fun q => containsSeq q.1.toList base.toList) with
  | some q => q.2
  | none => .kUnknown

/-- The parts of a `std::filesystem::path` argument (plus the file system
facts) that `Open` inspects. -/
structure PathInfo where
  base : String
  ext : String
  present : Bool
  bytes : List Nat
  deriving Repr, DecidableEq

/-- `SingleChannelBinaryTraceFileReader::Open(path)`
(SingleChannelBinaryTraceFileReader.cpp, lines 25-79).  Returns the
result, the post state, and whether the kind-mismatch warning was
printed. -/
def binOpen (st : SingleChannelBinaryReaderState) (p : PathInfo) :
    Bool × SingleChannelBinaryReaderState × Bool :=
  if st.isOpen then (false, st, false)
  else if p.ext ≠ ".osi" then (false, st, false)
  else if !p.present then (false, st, false)
  else
    let byFilename := inferTypeFromFilename kFileNameMessageTypeMap p.base
    if st.messageType ≠ .kUnknown then
      (true,
        { st with
            parserBoundTo := st.messageType
            isOpen := true
            fileRemaining := p.bytes },
        decide (st.messageType ≠ byFilename))
    else
      if byFilename = .kUnknown then (false, { st with messageType := byFilename }, false)
      else
        (true,
          { st with
              messageType := byFilename
              parserBoundTo := byFilename
              isOpen := true
              fileRemaining := p.bytes }, false)

/-- `Open(path, message_type)` (lines 20-23): assigns `message_type_`
*before* delegating — also when the delegate fails because a file is
already open. -/
def binOpenWithType (st : SingleChannelBinaryReaderState) (p : PathInfo)
    (t : ReaderTopLevelMessage) : Bool × SingleChannelBinaryReaderState × Bool :=
  binOpen { st with messageType := t } p

/-- `TXTHTraceFileReader` state: open flag, the open file's lines, the
current line index of the read cursor, the captured sentinel line, the
stored kind and the parser binding. -/
structure TxthReaderState where
  isOpen : Bool
  fileLines : List String
  cursor : Nat
  sentinel : String
  messageType : ReaderTopLevelMessage
  parserBoundTo : ReaderTopLevelMessage
  deriving Repr, DecidableEq

structure TxthPathInfo where
  base : String
  ext : String
  present : Bool
  contentLines : List String
  deriving Repr, DecidableEq

/-- `TXTHTraceFileReader::Open(path)` (TXTHTraceFileReader.cpp, lines
20-64): infers the kind from the filename only when none is stored,
captures the first line as the message-start sentinel, rewinds. -/
def txthOpen (st : TxthReaderState) (p : TxthPathInfo) : Bool × TxthReaderState :=
  if st.isOpen then (false, st)
  else if p.ext ≠ ".txth" then (false, st)
  else if !p.present then (false, st)
  else
    let mt := if st.messageType = .kUnknown
      then inferTypeFromFilename kFileNameMessageTypeMap p.base
      else st.messageType
    if mt = .kUnknown then (false, { st with messageType := mt })
    else
      (true,
        { st with
            messageType := mt
            parserBoundTo := mt
            isOpen := true
            fileLines := p.contentLines
            cursor := 0
            sentinel := (p.contentLines.head?).getD "" })

/-- `Open(path, message_type)` (lines 66-69): stores the kind before
delegating, also when already open. -/
def txthOpenWithType (st : TxthReaderState) (p : TxthPathInfo)
    (t : ReaderTopLevelMessage) : Bool × TxthReaderState :=
  txthOpen { st with messageType := t } p

/-- `MCAPTraceFileWriter` state: open flag, whether the mandatory
`net.asam.osi.trace` metadata was accepted, the topic-to-channel map, the
names of the registered schemas (in registration order), the next channel
id the mcap library will assign, and an opaque token standing for
`mcap_options_`. -/
structure McapWriterState where
  isOpen : Bool
  requiredMetadataAdded : Bool
  topicToChannelId : List (String × Nat)
  schemas : List String
  nextChannelId : Nat
  optionsToken : Nat
  deriving Repr, DecidableEq

/-- `MCAPTraceFileWriter::Open(path)` (MCAPTraceFileWriter.cpp, lines
51-65); `openSucceeds` stands for the file-system outcome of
`trace_file_.open`. -/
def mcapWriterOpen (st : McapWriterState) (openSucceeds : Bool) :
    Bool × McapWriterState :=
  if st.isOpen then (false, st)
  else if !openSucceeds then (false, st)
  else (true, { st with isOpen := true })

/-- `Open(path, options)` (lines 67-70): stores `mcap_options_` before
delegating, also when already open. -/
def mcapWriterOpenWithOptions (st : McapWriterState) (openSucceeds : Bool)
    (options : Nat) : Bool × McapWriterState :=
  mcapWriterOpen { st with optionsToken := options } openSucceeds

/-- C6: on opening a binary reader (fresh instance, `.osi` path,
existing file): an explicitly supplied kind is used even when the
filename infix suggests another kind, with a warning exactly when they
disagree and no failure; without an explicit kind the first matching
infix of the map scan decides, and `Open` fails iff that scan yields
`kUnknown`. -/
theorem C6_kind_resolution (st : SingleChannelBinaryReaderState) (p : PathInfo)
    (t : ReaderTopLevelMessage)
    (hopen : st.isOpen = false) (hext : p.ext = ".osi") (hp : p.present = true) :
    (t ≠ .kUnknown →
      (binOpenWithType st p t).1 = true ∧
      (binOpenWithType st p t).2.1.messageType = t ∧
      (binOpenWithType st p t).2.1.parserBoundTo = t ∧
      ((binOpenWithType st p t).2.2 = true ↔
        t ≠ inferTypeFromFilename kFileNameMessageTypeMap p.base)) ∧
    (st.messageType = .kUnknown →
      (inferTypeFromFilename kFileNameMessageTypeMap p.base ≠ .kUnknown →
        (binOpen st p).1 = true ∧
        (binOpen st p).2.1.messageType
          = inferTypeFromFilename kFileNameMessageTypeMap p.base) ∧
      (inferTypeFromFilename kFileNameMessageTypeMap p.base = .kUnknown →
        (binOpen st p).1 = false)) := by
  constructor
  · intro ht
    unfold binOpenWithType binOpen
    simp only [hopen, hext, hp]
    simp [ht]
  · intro hmt
    constructor
    · intro hinf
      unfold binOpen
      simp only [hopen, hext, hp]
      simp [hmt, hinf]
    · intro hinf
      unfold binOpen
      simp only [hopen, hext, hp]
      simp [hmt, hinf]

/-- Witness for C6: filename `example_sv_10.osi` (infix of
`kSensorView`) opened with explicit kind `kSensorData` resolves to
`kSensorData` with a warning; without an explicit kind it resolves to
`kSensorView`. -/
theorem C6_kind_resolution_witness :
    (binOpenWithType ⟨false, [], .kUnknown, .kUnknown⟩
        ⟨"example_sv_10.osi", ".osi", true, []⟩ .kSensorData).1 = true ∧
    (binOpenWithType ⟨false, [], .kUnknown, .kUnknown⟩
        ⟨"example_sv_10.osi", ".osi", true, []⟩ .kSensorData).2.1.messageType
      = .kSensorData ∧
    (binOpenWithType ⟨false, [], .kUnknown, .kUnknown⟩
        ⟨"example_sv_10.osi", ".osi", true, []⟩ .kSensorData).2.2 = true ∧
    (binOpen ⟨false, [], .kUnknown, .kUnknown⟩
        ⟨"example_sv_10.osi", ".osi", true, []⟩).2.1.messageType = .kSensorView := by
  have h := C6_kind_resolution ⟨false, [], .kUnknown, .kUnknown⟩
    ⟨"example_sv_10.osi", ".osi", true, []⟩ .kSensorData rfl rfl rfl
  have hinf : inferTypeFromFilename kFileNameMessageTypeMap "example_sv_10.osi"
      = .kSensorView := by decide
  have h1 := h.1 (by decide)
  refine ⟨h1.1, h1.2.1, ?_, ?_⟩
  · rw [h1.2.2.2, hinf]
    decide
  · rw [(h.2 rfl).1 (by rw [hinf]; decide) |>.2, hinf]

/-- C9 (amended): calling `Open` again on an already-open reader or
writer always returns `false` and leaves the file open; the one-argument
overloads change no state at all, but the two-argument overloads
overwrite the stored message kind (readers) or the stored mcap options
(writer) *before* the already-open check, so that one field is mutated
even though the call fails.  The parser binding and all remaining state
are unchanged. -/
theorem C9_reopen (stB : SingleChannelBinaryReaderState) (stT : TxthReaderState)
    (stW : McapWriterState) (p : PathInfo) (pt : TxthPathInfo) (ok : Bool)
    (t u : ReaderTopLevelMessage) (opts : Nat)
    (hB : stB.isOpen = true) (hT : stT.isOpen = true) (hW : stW.isOpen = true) :
    binOpen stB p = (false, stB, false) ∧
    binOpenWithType stB p t = (false, { stB with messageType := t }, false) ∧
    txthOpen stT pt = (false, stT) ∧
    txthOpenWithType stT pt u = (false, { stT with messageType := u }) ∧
    mcapWriterOpen stW ok = (false, stW) ∧
    mcapWriterOpenWithOptions stW ok opts = (false, { stW with optionsToken := opts }) := by
  refine ⟨?_, ?_, ?_, ?_, ?_, ?_⟩
  · unfold binOpen
    simp [hB]
  · unfold binOpenWithType binOpen
    simp [hB]
  · unfold txthOpen
    simp [hT]
  · unfold txthOpenWithType txthOpen
    simp [hT]
  · unfold mcapWriterOpen
    simp [hW]
  · unfold mcapWriterOpenWithOptions mcapWriterOpen
    simp [hW]

/-- Witness for C9 on concrete already-open instances. -/
theorem C9_reopen_witness :
    binOpen ⟨true, [7], .kGroundTruth, .kGroundTruth⟩ ⟨"x_gt_.osi", ".osi", true, []⟩
      = (false, ⟨true, [7], .kGroundTruth, .kGroundTruth⟩, false) ∧
    txthOpen ⟨true, ["a"], 0, "a", .kGroundTruth, .kGroundTruth⟩
        ⟨"x_gt_.txth", ".txth", true, []⟩
      = (false, ⟨true, ["a"], 0, "a", .kGroundTruth, .kGroundTruth⟩) ∧
    mcapWriterOpen ⟨true, false, [], [], 1, 0⟩ true
      = (false, ⟨true, false, [], [], 1, 0⟩) := by
  have h := C9_reopen ⟨true, [7], .kGroundTruth, .kGroundTruth⟩
    ⟨true, ["a"], 0, "a", .kGroundTruth, .kGroundTruth⟩
    ⟨true, false, [], [], 1, 0⟩ ⟨"x_gt_.osi", ".osi", true, []⟩
    ⟨"x_gt_.txth", ".txth", true, []⟩ true .kSensorData .kSensorData 5
    rfl rfl rfl
  exact ⟨h.1, h.2.2.1, h.2.2.2.2.1⟩

/-- Counterexample to C9 as stated: `Open(path, kind)` on an already-open
binary reader returns `false` but still overwrites the stored
`message_type_` (here from `kGroundTruth` to `kSensorData`) before the
already-open check, so the failed call does have a side effect on the
instance's kind binding. -/
theorem C9_counterexample :
    (binOpenWithType ⟨true, [7], .kGroundTruth, .kGroundTruth⟩
        ⟨"x_gt_.osi", ".osi", true, []⟩ .kSensorData).1 = false ∧
    (binOpenWithType ⟨true, [7], .kGroundTruth, .kGroundTruth⟩
        ⟨"x_gt_.osi", ".osi", true, []⟩ .kSensorData).2.1.messageType
      = .kSensorData ∧
    ReaderTopLevelMessage.kSensorData ≠ ReaderTopLevelMessage.kGroundTruth := by
  decide

/-! ### `MCAPTraceFileWriter::AddChannel` (MCAPTraceFileWriter.cpp, lines
165-212)

`it_schema` searches `schemas_` for *any* schema whose name equals the
new descriptor's full name — it is not the schema the existing topic was
registered with.  The warning/id-reuse branch therefore fires whenever a
schema of the new descriptor's name exists anywhere, regardless of the
topic's own binding. -/
inductive AddChannelResult where
  | ok (id : Nat) (warned : Bool)
  | fatal (msg : String)
  deriving Repr, DecidableEq

def AddChannel (st : McapWriterState) (topic : String) (descriptorName : String) :
    AddChannelResult × McapWriterState :=
  let schemaFound := st.schemas.contains descriptorName
  match st.topicToChannelId.find? (fun e => e.1 == topic) with
  | some e =>
    if schemaFound then (.ok e.2 true, st)
    else (.fatal "Topic already exists with a different message type", st)
  | none =>
    let schemas' := if schemaFound then st.schemas else st.schemas ++ [descriptorName]
    (.ok st.nextChannelId false,
      { st with
          schemas := schemas'
          topicToChannelId := st.topicToChannelId ++ [(topic, st.nextChannelId)]
          nextChannelId := st.nextChannelId + 1 })

/-- Evaluation of the C5 failing input.  Registering topic `"t"` with
`osi3.GroundTruth`, then topic `"u"` with `osi3.SensorData`, then topic
`"t"` again with `osi3.SensorData` (a *different* kind) does not raise:
because a schema named `osi3.SensorData` exists (added for `"u"`), the
code takes the "same message type" branch and returns `"t"`'s original
channel id with only a warning.  Without the interleaved registration the
same call raises, which is the documented intent. -/
theorem C5_addchannel_eval :
    (AddChannel ⟨true, true, [], [], 1, 0⟩ "t" "osi3.GroundTruth").1 = .ok 1 false ∧
    (AddChannel (AddChannel ⟨true, true, [], [], 1, 0⟩ "t" "osi3.GroundTruth").2
        "u" "osi3.SensorData").1 = .ok 2 false ∧
    (AddChannel (AddChannel (AddChannel ⟨true, true, [], [], 1, 0⟩
        "t" "osi3.GroundTruth").2 "u" "osi3.SensorData").2
        "t" "osi3.SensorData").1 = .ok 1 true ∧
    (AddChannel (AddChannel ⟨true, true, [], [], 1, 0⟩ "t" "osi3.GroundTruth").2
        "t" "osi3.SensorData").1
      = .fatal "Topic already exists with a different message type" ∧
    (AddChannel (AddChannel ⟨true, true, [], [], 1, 0⟩ "t" "osi3.GroundTruth").2
        "t" "osi3.GroundTruth").1 = .ok 1 true ∧
    "osi3.GroundTruth" ≠ "osi3.SensorData" := by
  decide

/-! ### `MCAPTraceFileWriter::AddFileMetadata` and `WriteMessage`
(MCAPTraceFileWriter.cpp, lines 72-142).  The underlying
`mcap_writer_.write` calls are the out-of-scope container engine and are
modelled as succeeding.  Metadata records are modelled by their name and
the list of keys present in their key-value map. -/
def kRequiredMetadataFields : List String :=
  ["version", "min_osi_version", "max_osi_version",
   "min_protobuf_version", "max_protobuf_version"]

def AddFileMetadata (st : McapWriterState) (name : String)
    (fieldKeys : List String) : Bool × McapWriterState :=
  if name = "net.asam.osi.trace" then
    if st.requiredMetadataAdded then (false, st)
    else if kRequiredMetadataFields.all (fun f => fieldKeys.contains f) then
      (true, { st with requiredMetadataAdded := true })
    else (false, st)
  else (true, st)

def WriteMessage (st : McapWriterState) (topic : String) : Bool :=
  if topic = "" then false
  else if !st.isOpen then false
  else if !st.requiredMetadataAdded then false
  else if (st.topicToChannelId.find? (fun e => e.1 == topic)).isNone then false
  else true

/-- C7: `WriteMessage` fails on every message and topic unless the
`net.asam.osi.trace` provenance record was accepted beforehand; that
record is accepted at most once (a successful add flips the
`required_metadata_added_` flag from `false` to `true`, and any further
add of that record fails leaving the state unchanged); an add with any of
the five required fields missing fails without marking the requirement
satisfied. -/
theorem C7_metadata_gate (st : McapWriterState) (topic : String)
    (fieldKeys : List String) (st' : McapWriterState) :
    (st.requiredMetadataAdded = false → WriteMessage st topic = false) ∧
    (AddFileMetadata st "net.asam.osi.trace" fieldKeys = (true, st') →
      st.requiredMetadataAdded = false ∧ st'.requiredMetadataAdded = true) ∧
    (st.requiredMetadataAdded = true →
      AddFileMetadata st "net.asam.osi.trace" fieldKeys = (false, st)) ∧
    (∀ f ∈ kRequiredMetadataFields, fieldKeys.contains f = false →
      AddFileMetadata st "net.asam.osi.trace" fieldKeys = (false, st)) := by
  refine ⟨?_, ?_, ?_, ?_⟩
  · intro hmeta
    unfold WriteMessage
    by_cases ht : topic = ""
    · simp [ht]
    · simp [ht, hmeta]
  · intro hadd
    unfold AddFileMetadata at hadd
    rw [if_pos rfl] at hadd
    by_cases hm : st.requiredMetadataAdded
    · rw [if_pos hm] at hadd
      cases hadd
    · rw [if_neg hm] at hadd
      constructor
      · simpa using hm
      · by_cases hall : kRequiredMetadataFields.all (fun f => fieldKeys.contains f)
        · rw [if_pos hall] at hadd
          injection hadd with h1 h2
          rw [← h2]
        · rw [if_neg hall] at hadd
          cases hadd
  · intro hm
    unfold AddFileMetadata
    rw [if_pos rfl, if_pos hm]
  · intro f hf hnc
    unfold AddFileMetadata
    rw [if_pos rfl]
    by_cases hm : st.requiredMetadataAdded
    · rw [if_pos hm]
    · rw [if_neg hm, if_neg ?_]
      intro hall
      have := List.all_eq_true.mp hall f hf
      rw [hnc] at this
      cases this

/-- Witness for C7: a writer that never registered the provenance record
cannot write to a registered topic, and an add missing
`min_osi_version` fails. -/
theorem C7_metadata_gate_witness :
    WriteMessage ⟨true, false, [("t", 1)], ["osi3.GroundTruth"], 2, 0⟩ "t" = false ∧
    AddFileMetadata ⟨true, false, [("t", 1)], ["osi3.GroundTruth"], 2, 0⟩
        "net.asam.osi.trace" ["version"]
      = (false, ⟨true, false, [("t", 1)], ["osi3.GroundTruth"], 2, 0⟩) := by
  have h := C7_metadata_gate ⟨true, false, [("t", 1)], ["osi3.GroundTruth"], 2, 0⟩
    "t" ["version"] ⟨true, false, [("t", 1)], ["osi3.GroundTruth"], 2, 0⟩
  exact ⟨h.1 rfl, h.2.2.2 "min_osi_version" (by decide) (by decide)⟩

/-! ### `OsiFileAnalyzer::Analyze`, phase 1 (OsiFileAnalyzer.cpp, lines
44-79) and the `Option` result

The sizing loop runs while `peek() != EOF`; `ReadMessageSize` returns 0
both on a failed 4-byte read and for a genuine zero prefix, and the loop
`break`s on 0.  An oversize prefix prints the corruption warning and
`break`s.  `SkipMessage` seeks forward; seeking past the end succeeds and
the next `peek` reports EOF, which `List.drop` models directly (the
`SkipMessage` failure `break` is unreachable for an `ifstream`).  Each
iteration consumes at least the 4 prefix bytes, so `length + 1` fuel is
never exhausted. -/
structure Pass1Result where
  count : Nat
  totalBytes : Nat
  minSize : Nat
  maxSize : Nat
  oversizeHit : Bool
  deriving Repr, DecidableEq

def pass1Loop : Nat → List Nat → Nat → Nat → Nat → Nat → Pass1Result
  | 0, _, count, total, mn, mx => ⟨count, total, mn, mx, false⟩
  | fuel + 1, file, count, total, mn, mx =>
    if file.isEmpty then ⟨count, total, mn, mx, false⟩
    else match readU32LE file with
      | none => ⟨count, total, mn, mx, false⟩
      | some (size, rest) =>
        if size = 0 then ⟨count, total, mn, mx, false⟩
        else if kMaxExpectedMessageSize < size then ⟨count, total, mn, mx, true⟩
        else pass1Loop fuel (rest.drop size) (count + 1) (total + size)
          (min mn size) (max mx size)

/-- Phase 1 with the `size_t` max sentinel for the running minimum. -/
def pass1 (file : List Nat) : Pass1Result :=
  pass1Loop (file.length + 1) file 0 0 (2 ^ 64 - 1) 0

/-- The fields of `OsiFileStatistics` that the claims inspect (the
`double` timing/rate fields are out of scope here; the timestamp
extraction itself is modelled by `ExtractTimestampNanoseconds`). -/
structure AnalysisStats where
  message_count : Nat
  total_message_bytes : Nat
  min_message_size : Nat
  max_message_size : Nat
  is_sampled : Bool
  timestamp_sample_count : Nat
  sampled_frames : List Nat
  deriving Repr, DecidableEq

/-- `Analyze` (for an existing, openable `.osi` file): `none` exactly
when phase 1 counted no messages (lines 68-71); otherwise the statistics
of the scanned prefix together with the phase-2 sampling plan. -/
def Analyze (file : List Nat) (sample_size : Nat) : Option AnalysisStats :=
  let p := pass1 file
  if p.count = 0 then none
  else some {
    message_count := p.count
    total_message_bytes := p.totalBytes
    min_message_size := if p.minSize = 2 ^ 64 - 1 then 0 else p.minSize
    max_message_size := p.maxSize
    is_sampled := analyzeIsSampled p.count sample_size
    timestamp_sample_count := timestampSampleSize p.count sample_size
    sampled_frames := analyzeSampledFrames p.count sample_size }

/-- Little-endian `uint32` encoding, for building test files. -/
def u32le (n : Nat) : List Nat :=
  [n % 256, n / 256 % 256, n / 65536 % 256, n / 16777216 % 256]

def encodeFrame (payload : List Nat) : List Nat := u32le payload.length ++ payload

def encodeFrames (frames : List (List Nat)) : List Nat :=
  (frames.map encodeFrame).flatten

theorem readU32LE_u32le (n : Nat) (rest : List Nat) :
    readU32LE (u32le n ++ rest) = some (n % 2 ^ 32, rest) := by
  have h32 : (2:Nat) ^ 32 = 4294967296 := by norm_num
  unfold u32le readU32LE
  simp only [List.cons_append, List.nil_append, Option.some.injEq, Prod.mk.injEq,
    and_true]
  rw [h32]
  omega

theorem pass1Loop_frames_oversize (frames : List (List Nat)) :
    ∀ (fuel count total mn mx s : Nat) (junk : List Nat),
    (∀ p ∈ frames, 0 < p.length ∧ p.length ≤ kMaxExpectedMessageSize ∧
      p.length < 2 ^ 32) →
    kMaxExpectedMessageSize < s → s < 2 ^ 32 →
    (encodeFrames frames).length + 4 ≤ fuel →
    pass1Loop fuel (encodeFrames frames ++ (u32le s ++ junk)) count total mn mx
      = ⟨count + frames.length,
         total + (frames.map List.length).sum,
         List.foldl (fun a p => min a p.length) mn frames,
         List.foldl (fun a p => max a p.length) mx frames,
         true⟩ := by
  induction frames with
  | nil =>
    intro fuel count total mn mx s junk _ hs1 hs2 hfuel
    obtain ⟨f, rfl⟩ : ∃ f, fuel = f + 1 := ⟨fuel - 1, by omega⟩
    have h0 : encodeFrames ([] : List (List Nat)) = [] := rfl
    rw [h0, List.nil_append]
    unfold pass1Loop
    rw [if_neg (by simp [u32le])]
    rw [readU32LE_u32le, Nat.mod_eq_of_lt hs2]
    dsimp only
    rw [if_neg (by omega), if_pos hs1]
    simp

  | cons p frames ih =>
    intro fuel count total mn mx s junk hwf hs1 hs2 hfuel
    have hlen : (encodeFrames (p :: frames)).length
        = 4 + p.length + (encodeFrames frames).length := by
      simp [encodeFrames, encodeFrame, u32le]
      omega
    obtain ⟨f, rfl⟩ : ∃ f, fuel = f + 1 := ⟨fuel - 1, by omega⟩
    have hp := hwf p (by simp)
    have hassoc : encodeFrames (p :: frames) ++ (u32le s ++ junk)
        = u32le p.length ++ (p ++ (encodeFrames frames ++ (u32le s ++ junk))) := by
      simp [encodeFrames, encodeFrame]
    unfold pass1Loop
    rw [if_neg (by rw [hassoc]; simp [u32le])]
    rw [hassoc, readU32LE_u32le, Nat.mod_eq_of_lt hp.2.2]
    dsimp only
    rw [if_neg (by omega), if_neg (by omega)]
    rw [List.drop_left]
    rw [ih f (count + 1) (total + p.length) (min mn p.length) (max mx p.length) s junk
      (fun q hq => hwf q (by simp [hq])) hs1 hs2 (by omega)]
    simp only [Pass1Result.mk.injEq, List.length_cons, List.map_cons, List.sum_cons,
      List.foldl_cons, and_true, true_and]
    constructor <;> omega

theorem encodeFrames_length_ge (frames : List (List Nat)) :
    frames.length ≤ (encodeFrames frames).length := by
  induction frames with
  | nil => simp [encodeFrames]
  | cons p fs ih =>
    have h : (encodeFrames (p :: fs)).length
        = 4 + p.length + (encodeFrames fs).length := by
      simp [encodeFrames, encodeFrame, u32le]
      omega
    simp only [List.length_cons]
    omega

/-- A truncated trailing size prefix (fewer than 4 bytes) likewise stops
the scan: `ReadMessageSize` fails, returns 0, and the loop breaks without
the oversize warning. -/
theorem pass1Loop_frames_short (frames : List (List Nat)) :
    ∀ (fuel count total mn mx : Nat) (junk : List Nat),
    (∀ p ∈ frames, 0 < p.length ∧ p.length ≤ kMaxExpectedMessageSize ∧
      p.length < 2 ^ 32) →
    junk.length < 4 →
    frames.length + 1 ≤ fuel →
    pass1Loop fuel (encodeFrames frames ++ junk) count total mn mx
      = ⟨count + frames.length,
         total + (frames.map List.length).sum,
         List.foldl (fun a p => min a p.length) mn frames,
         List.foldl (fun a p => max a p.length) mx frames,
         false⟩ := by
  induction frames with
  | nil =>
    intro fuel count total mn mx junk _ hj hfuel
    obtain ⟨f, rfl⟩ : ∃ f, fuel = f + 1 := ⟨fuel - 1, by omega⟩
    have h0 : encodeFrames ([] : List (List Nat)) = [] := rfl
    rw [h0, List.nil_append]
    unfold pass1Loop
    by_cases hjn : junk.isEmpty
    · rw [if_pos hjn]
      simp
    · rw [if_neg hjn]
      rw [(readU32LE_none_iff junk).mpr hj]
      simp
  | cons p frames ih =>
    intro fuel count total mn mx junk hwf hj hfuel
    simp only [List.length_cons] at hfuel
    have hlen : (encodeFrames (p :: frames)).length
        = 4 + p.length + (encodeFrames frames).length := by
      simp [encodeFrames, encodeFrame, u32le]
      omega
    obtain ⟨f, rfl⟩ : ∃ f, fuel = f + 1 := ⟨fuel - 1, by omega⟩
    have hp := hwf p (by simp)
    have hassoc : encodeFrames (p :: frames) ++ junk
        = u32le p.length ++ (p ++ (encodeFrames frames ++ junk)) := by
      simp [encodeFrames, encodeFrame]
    unfold pass1Loop
    rw [if_neg (by rw [hassoc]; simp [u32le])]
    rw [hassoc, readU32LE_u32le, Nat.mod_eq_of_lt hp.2.2]
    dsimp only
    rw [if_neg (by omega), if_neg (by omega)]
    rw [List.drop_left]
    rw [ih f (count + 1) (total + p.length) (min mn p.length) (max mx p.length) junk
      (fun q hq => hwf q (by simp [hq])) hj (by omega)]
    simp only [Pass1Result.mk.injEq, List.length_cons, List.map_cons, List.sum_cons,
      List.foldl_cons, and_true, true_and]
    constructor <;> omega

/-- C8 (amended): an oversize prefix — or an unreadable (truncated) size
prefix — stops the sizing scan at that frame (the oversize case with the
corruption diagnostic); the analysis returns no statistics only when no
frame was scanned before the stop, and otherwise returns statistics
computed from exactly the frames preceding the bad prefix. -/
theorem C8_partial_stats (frames : List (List Nat)) (s : Nat)
    (junk shortJunk : List Nat) (k : Nat)
    (hwf : ∀ p ∈ frames, 0 < p.length ∧ p.length ≤ kMaxExpectedMessageSize ∧
      p.length < 2 ^ 32)
    (hs1 : kMaxExpectedMessageSize < s) (hs2 : s < 2 ^ 32)
    (hshort : shortJunk.length < 4) :
    ((pass1 (encodeFrames frames ++ (u32le s ++ junk))).oversizeHit = true ∧
      (Analyze (encodeFrames frames ++ (u32le s ++ junk)) k = none ↔ frames = []) ∧
      (frames ≠ [] →
        ∃ stats, Analyze (encodeFrames frames ++ (u32le s ++ junk)) k = some stats ∧
          stats.message_count = frames.length ∧
          stats.total_message_bytes = (frames.map List.length).sum)) ∧
    ((Analyze (encodeFrames frames ++ shortJunk) k = none ↔ frames = []) ∧
      (frames ≠ [] →
        ∃ stats, Analyze (encodeFrames frames ++ shortJunk) k = some stats ∧
          stats.message_count = frames.length ∧
          stats.total_message_bytes = (frames.map List.length).sum)) := by
  have hp1 : pass1 (encodeFrames frames ++ (u32le s ++ junk))
      = ⟨frames.length, (frames.map List.length).sum,
         List.foldl (fun a p => min a p.length) (2 ^ 64 - 1) frames,
         List.foldl (fun a p => max a p.length) 0 frames, true⟩ := by
    unfold pass1
    rw [pass1Loop_frames_oversize frames _ 0 0 (2 ^ 64 - 1) 0 s junk hwf hs1 hs2
      (by simp [u32le]; try omega)]
    simp
  have hp2 : pass1 (encodeFrames frames ++ shortJunk)
      = ⟨frames.length, (frames.map List.length).sum,
         List.foldl (fun a p => min a p.length) (2 ^ 64 - 1) frames,
         List.foldl (fun a p => max a p.length) 0 frames, false⟩ := by
    unfold pass1
    rw [pass1Loop_frames_short frames _ 0 0 (2 ^ 64 - 1) 0 shortJunk hwf hshort
      (by simp only [List.length_append]
          have := encodeFrames_length_ge frames
          omega)]
    simp
  refine ⟨⟨by rw [hp1], ?_, ?_⟩, ?_, ?_⟩
  · unfold Analyze
    rw [hp1]
    constructor
    · intro hnone
      by_cases hc : frames.length = 0
      · exact List.length_eq_zero.mp hc
      · rw [if_neg (by simpa using hc)] at hnone
        cases hnone
    · intro hnil
      subst hnil
      simp
  · intro hne
    unfold Analyze
    rw [hp1]
    rw [if_neg (by simpa using List.length_pos.mpr hne |>.ne')]
    exact ⟨_, rfl, rfl, rfl⟩
  · unfold Analyze
    rw [hp2]
    constructor
    · intro hnone
      by_cases hc : frames.length = 0
      · exact List.length_eq_zero.mp hc
      · rw [if_neg (by simpa using hc)] at hnone
        cases hnone
    · intro hnil
      subst hnil
      simp
  · intro hne
    unfold Analyze
    rw [hp2]
    rw [if_neg (by simpa using List.length_pos.mpr hne |>.ne')]
    exact ⟨_, rfl, rfl, rfl⟩

/-- Witness for C8: one good 1-byte frame followed by an oversize prefix
(`536870913 > 512 MiB`) yields statistics for the one scanned frame. -/
theorem C8_partial_stats_witness :
    (pass1 [1, 0, 0, 0, 99, 1, 0, 0, 32]).oversizeHit = true ∧
    Analyze [1, 0, 0, 0, 99, 1, 0, 0, 32] 0 ≠ none ∧
    Analyze [1, 0, 0, 0, 99, 7] 0 ≠ none := by
  have h := C8_partial_stats [[99]] 536870913 [] [7] 0
    (by intro p hp; simp at hp; subst hp; norm_num [kMaxExpectedMessageSize])
    (by norm_num [kMaxExpectedMessageSize]) (by norm_num) (by norm_num)
  have henc : encodeFrames [[99]] ++ (u32le 536870913 ++ [])
      = [1, 0, 0, 0, 99, 1, 0, 0, 32] := by decide
  have henc2 : encodeFrames [[99]] ++ [7] = [1, 0, 0, 0, 99, 7] := by decide
  rw [henc] at h
  rw [henc2] at h
  refine ⟨h.1.1, ?_, ?_⟩
  · intro hc
    have := h.1.2.1.mp hc
    cases this
  · intro hc
    have := h.2.1.mp hc
    cases this

/-- Counterexample to C8 as stated: the file
`[1,0,0,0,99, 1,0,0,32]` (one valid frame, then a length prefix of
`536870913 > kMaxExpectedMessageSize`) makes the analyzer hit the
oversize branch, yet `Analyze` still returns statistics (for the one
scanned frame) instead of aborting with no statistics. -/
theorem C8_counterexample :
    (pass1 [1, 0, 0, 0, 99, 1, 0, 0, 32]).oversizeHit = true ∧
    (Analyze [1, 0, 0, 0, 99, 1, 0, 0, 32] 0).isSome = true ∧
    (536870913 : Nat) > kMaxExpectedMessageSize := by
  refine ⟨by decide, by decide, by norm_num [kMaxExpectedMessageSize]⟩

/-! ### `TXTHTraceFileReader::ReadMessage` (TXTHTraceFileReader.cpp,
lines 73-120)

The text stream is modelled at line granularity: `fileLines` are the
lines of the open file, `cursor` is the index of the next line `getline`
would return, and `tellg`/`seekg` positions are line indices.  (A final
line terminated by a newline is assumed, so `eof` is raised exactly when
`getline` finds no more lines.)  Each loop iteration either advances the
cursor or raises `eof`, so `length + 1` fuel is never exhausted. -/
def txthGetline (fileLines : List String) (cursor : Nat) : String × Nat × Bool :=
  match fileLines.get? cursor with
  | some l => (l, cursor + 1, false)
  | none => ("", cursor, true)

def txthLoop (fileLines : List String) (sentinel : String) :
    Nat → Nat → Nat → String → Bool → String → String × Nat
  | 0, cursor, _, _, _, acc => (acc, cursor)
  | fuel + 1, cursor, lastPos, line, eof, acc =>
    if !eof && line ≠ sentinel then
      let acc' := acc ++ line ++ "\n"
      let g := txthGetline fileLines cursor
      txthLoop fileLines sentinel fuel g.2.1 cursor g.1 g.2.2 acc'
    else
      if !eof then (acc, lastPos) else (acc, cursor)

def txthReadNextMessageFromFile (fileLines : List String) (sentinel : String)
    (cursor : Nat) : String × Nat :=
  let g := txthGetline fileLines cursor
  txthLoop fileLines sentinel (fileLines.length + 1) g.2.1 0 "" g.2.2 g.1

def txthHasNext (st : TxthReaderState) : Bool :=
  st.isOpen && decide (st.cursor < st.fileLines.length)

def txthReadMessage (st : TxthReaderState) :
    Option (String × ReaderTopLevelMessage) × TxthReaderState :=
  if !txthHasNext st then (none, st)
  else
    let r := txthReadNextMessageFromFile st.fileLines st.sentinel st.cursor
    let st' := { st with cursor := r.2 }
    if r.1 = "" then (none, st')
    else (some (r.1, st.messageType), st')

/-! ### `MCAPTraceFileReader::ReadMessage` (MCAPTraceFileReader.cpp,
lines 47-106)

The container engine's message view is modelled as the list of stored
messages (schema encoding, schema name, channel topic) with the
iterator's position.  `Deserialize` is the out-of-scope schema library
and is modelled as succeeding. -/
structure McapMessageRec where
  schemaEncoding : String
  schemaName : String
  topic : String
  deriving Repr, DecidableEq

structure McapReaderState where
  streamOpen : Bool
  hasView : Bool
  messages : List McapMessageRec
  iterPos : Nat
  skipNonOsiMsgs : Bool
  deriving Repr, DecidableEq

def mcapHasNext (st : McapReaderState) : Bool :=
  st.streamOpen && (st.hasView && decide (st.iterPos < st.messages.length))

/-- `deserializer_map_` (MCAPTraceFileReader.h): schema names the reader
can decode, with the kind recorded in the `ReadResult`. -/
def mcapDeserializerMap : List (String × ReaderTopLevelMessage) :=
  [("osi3.GroundTruth", .kGroundTruth), ("osi3.SensorData", .kSensorData),
   ("osi3.SensorView", .kSensorView),
   ("osi3.SensorViewConfiguration", .kSensorViewConfiguration),
   ("osi3.HostVehicleData", .kHostVehicleData),
   ("osi3.TrafficCommand", .kTrafficCommand),
   ("osi3.TrafficCommandUpdate", .kTrafficCommandUpdate),
   ("osi3.TrafficUpdate", .kTrafficUpdate),
   ("osi3.MotionRequest", .kMotionRequest),
   ("osi3.StreamingUpdate", .kStreamingUpdate)]

inductive McapReadOutcome where
  | noMessage
  | fatal (msg : String)
  | message (messageType : ReaderTopLevelMessage) (channel : String)
  deriving Repr, DecidableEq

/-- The `while (HasNext())` loop of `ReadMessage`: skip or reject
non-OSI-protobuf schemas, decode known ones, fall through to the
diagnostic + `nullopt` when exhausted.  Structural recursion on the
number of messages left. -/
def mcapReadLoop (st : McapReaderState) : Nat → Nat → McapReadOutcome × McapReaderState
  | 0, pos => (.noMessage, { st with iterPos := pos })
  | fuel + 1, pos =>
    match st.messages.get? pos with
    | none => (.noMessage, { st with iterPos := pos })
    | some m =>
      if m.schemaEncoding ≠ "protobuf" ∨ ¬ "osi3.".isPrefixOf m.schemaName then
        if st.skipNonOsiMsgs then mcapReadLoop st fuel (pos + 1)
        else (.fatal ("Unsupported message encoding: " ++ m.schemaEncoding
          ++ ". Only OSI3 protobuf is supported."), { st with iterPos := pos })
      else
        match mcapDeserializerMap.find? (fun e => e.1 == m.schemaName) with
        | some e => (.message e.2 m.topic, { st with iterPos := pos + 1 })
        | none => (.fatal ("Unsupported OSI message type: " ++ m.schemaName),
            { st with iterPos := pos })

def mcapReadMessage (st : McapReaderState) : McapReadOutcome × McapReaderState :=
  if !mcapHasNext st then (.noMessage, st)
  else mcapReadLoop st (st.messages.length - st.iterPos) st.iterPos

/-- C10: for each of the three codecs' readers, calling `ReadMessage`
while `HasNext()` is false returns an empty result (after printing a
diagnostic), raises no error, and leaves the reader state unchanged. -/
theorem C10_read_without_next (stB : SingleChannelBinaryReaderState)
    (stT : TxthReaderState) (stM : McapReaderState)
    (hB : binHasNext stB = false) (hT : txthHasNext stT = false)
    (hM : mcapHasNext stM = false) :
    binReadMessage stB = (.noMessage, stB) ∧
    txthReadMessage stT = (none, stT) ∧
    mcapReadMessage stM = (.noMessage, stM) := by
  refine ⟨?_, ?_, ?_⟩
  · unfold binReadMessage
    rw [hB]
    simp
  · unfold txthReadMessage
    rw [hT]
    simp
  · unfold mcapReadMessage
    rw [hM]
    simp

/-- Witness for C10 on three concrete exhausted/unopened readers. -/
theorem C10_read_without_next_witness :
    binReadMessage ⟨true, [], .kGroundTruth, .kGroundTruth⟩
      = (.noMessage, ⟨true, [], .kGroundTruth, .kGroundTruth⟩) ∧
    txthReadMessage ⟨false, ["a"], 0, "a", .kGroundTruth, .kGroundTruth⟩
      = (none, ⟨false, ["a"], 0, "a", .kGroundTruth, .kGroundTruth⟩) ∧
    mcapReadMessage ⟨true, true, [⟨"protobuf", "osi3.GroundTruth", "t"⟩], 1, false⟩
      = (.noMessage, ⟨true, true, [⟨"protobuf", "osi3.GroundTruth", "t"⟩], 1, false⟩) := by
  exact C10_read_without_next _ _ _ (by decide) (by decide) (by decide)

end OsiUtilities
